import Mathlib

/-!
Shallow embedding of the user-management component in `src/src/App.js`.
The component keeps all state in React hooks; we model that state as an
explicit `AppState` record and each handler as a pure state transformer.
Machine integers: the ids involved are JavaScript integers that are only
ever produced by the remote API (positive) or as `maxId + 1`; we model
them as `Nat`.
-/

/-- UserRecord mirrors the objects stored in the `users` state array:
`{ id, firstName, lastName, email, department }`. -/
structure UserRecord where
  id : Nat
  firstName : String
  lastName : String
  email : String
  department : String
deriving DecidableEq, Repr

/-- FormData mirrors the `formData` state. In the source the `id` field is
the empty string `""` when no record is being edited and a numeric id when
editing; we model that union as `Option Nat` (`none` = the empty string). -/
structure FormData where
  id : Option Nat
  firstName : String
  lastName : String
  email : String
  department : String
deriving DecidableEq, Repr

/-- emptyForm is `{ id: "", firstName: "", lastName: "", email: "", department: "" }`,
the reset value used by the handlers. -/
def emptyForm : FormData :=
  { id := none, firstName := "", lastName := "", email := "", department := "" }

/-- AppState collects the `useState` hooks of the component. -/
structure AppState where
  users : List UserRecord
  showModal : Bool
  formData : FormData
  error : String
  editing : Bool
  currentPage : Nat
deriving DecidableEq, Repr

/-- initialState is the state after the initial `useState` calls. -/
def initialState : AppState :=
  { users := [], showModal := false, formData := emptyForm, error := "",
    editing := false, currentPage := 1 }

/-- usersPerPage is the fixed page size constant. -/
def usersPerPage : Nat := 5

/-- handleAddUser: rejects when any of the four text fields is empty
(JavaScript `!formData.firstName` tests for the empty string here),
otherwise computes `maxId` with `users.reduce((max, user) => (user.id > max ? user.id : max), 0)`,
appends the new record with id `maxId + 1`, closes the modal and clears the
draft. -/
def handleAddUser (s : AppState) : AppState :=
  if s.formData.firstName = "" ∨ s.formData.lastName = "" ∨
     s.formData.email = "" ∨ s.formData.department = "" then
    { s with error := "All fields must be filled out!" }
  else
    let maxId := s.users.foldl (fun max user => if user.id > max then user.id else max) 0
    let newId := maxId + 1
    { s with
      users := s.users ++ [{ id := newId, firstName := s.formData.firstName,
                             lastName := s.formData.lastName, email := s.formData.email,
                             department := s.formData.department }],
      showModal := false,
      formData := emptyForm }

/-- handleEditUser: `users.map(user => user.id === formData.id ? updatedUser : user)`.
The source builds `updatedUser` with `id: formData.id`; the replacement only
happens when `user.id === formData.id`, so writing `id := user.id` in the
replaced record is the same value. Also sets `editing` and `showModal` to
false and clears the draft. -/
def handleEditUser (s : AppState) : AppState :=
  { s with
    users := s.users.map (fun user =>
      if some user.id = s.formData.id then
        { id := user.id, firstName := s.formData.firstName,
          lastName := s.formData.lastName, email := s.formData.email,
          department := s.formData.department }
      else user),
    editing := false,
    showModal := false,
    formData := emptyForm }

/-- handleDeleteUser: `users.filter(user => user.id !== id)`. -/
def handleDeleteUser (s : AppState) (id : Nat) : AppState :=
  { s with users := s.users.filter (fun user => user.id != id) }

/-- paginateUsers: `users.slice(startIndex, startIndex + usersPerPage)` with
`startIndex = (currentPage - 1) * usersPerPage`. -/
def paginateUsers (s : AppState) : List UserRecord :=
  let startIndex := (s.currentPage - 1) * usersPerPage
  (s.users.drop startIndex).take usersPerPage

/-- pageCount embeds `Math.ceil(users.length / usersPerPage)` from the
pagination control, as the natural-number ceiling division. -/
def pageCount (users : List UserRecord) : Nat :=
  (users.length + usersPerPage - 1) / usersPerPage

/-- setCurrentPage: clicking page item `num + 1` runs `setCurrentPage(num + 1)`
with no clamping. -/
def setCurrentPage (s : AppState) (p : Nat) : AppState :=
  { s with currentPage := p }

/-- addStep models one Add interaction: the user fills the form (setting
`formData` through `handleFormChange`) and presses the save button, which
runs `handleAddUser`. -/
def addStep (s : AppState) (d : FormData) : AppState :=
  handleAddUser { s with formData := d }

/-- addMany runs a sequence of Add interactions in order. -/
def addMany (s : AppState) (ds : List FormData) : AppState :=
  ds.foldl addStep s

/-- RemoteUser is the shape of one item of the fetched JSON array: at least
`id`, `name`, `email`. -/
structure RemoteUser where
  id : Nat
  name : String
  email : String
deriving DecidableEq, Repr

/-- splitCharsOnSpace models JavaScript `String.prototype.split(" ")` on the
character list: it splits at every single space and keeps empty pieces, and
on the empty string it yields one empty piece. -/
def splitCharsOnSpace : List Char → List (List Char)
  | [] => [[]]
  | c :: rest =>
    if c = ' ' then [] :: splitCharsOnSpace rest
    else
      match splitCharsOnSpace rest with
      | [] => [[c]]
      | w :: ws => (c :: w) :: ws

/-- splitOnSpace is `name.split(" ")` as a function on `String`. -/
def splitOnSpace (s : String) : List String :=
  (splitCharsOnSpace s.data).map (fun cs => String.mk cs)

/-- formatUser is the mapping applied to each fetched item:
`{ id: user.id, firstName: user.name.split(" ")[0], lastName: user.name.split(" ")[1] || "", email: user.email, department: "General" }`.
`split(" ")` never returns an empty array, so index 0 is total; index 1 is
`undefined` when absent and `|| ""` also maps the empty string to itself,
so both cases are `getD 1 ""`. -/
def formatUser (user : RemoteUser) : UserRecord :=
  { id := user.id,
    firstName := (splitOnSpace user.name).getD 0 "",
    lastName := (splitOnSpace user.name).getD 1 "",
    email := user.email,
    department := "General" }

/-- FetchResult models the outcome of the single `axios.get`: `ok` carries
the decoded array, `error` covers both a network error and a non-2xx
response (axios rejects on non-2xx, so both reach the `catch`). -/
def applyFetch (s : AppState) (result : Except Unit (List RemoteUser)) : AppState :=
  match result with
  | Except.ok data => { s with users := data.map formatUser }
  | Except.error _ => { s with error := "Failed to fetch users." }

/-- mountApp models the component mount: the `useEffect` with empty
dependency array runs `fetchUsers()` exactly once on `initialState`. -/
def mountApp (result : Except Unit (List RemoteUser)) : AppState :=
  applyFetch initialState result

/-- specLastName renders claim C6's words, not the source: "lastName is the
remainder after the first space (empty if the name contains no space)". -/
def specLastName (name : String) : String :=
  if name.data.contains ' ' then
    String.mk ((name.data.dropWhile (fun c => ¬ c = ' ')).drop 1)
  else ""

/-- ids lists the id fields of the records, the subject of the uniqueness
invariant. -/
def ids (l : List UserRecord) : List Nat := l.map UserRecord.id

/-! Helper lemmas about the `reduce` that computes the maximal id. -/

/-- maxStep is the reducer `(max, user) => (user.id > max ? user.id : max)`. -/
def maxStep (max : Nat) (user : UserRecord) : Nat :=
  if user.id > max then user.id else max

lemma handleAddUser_maxStep (s : AppState) :
    s.users.foldl (fun max user => if user.id > max then user.id else max) 0
      = s.users.foldl maxStep 0 := rfl

lemma le_foldl_maxStep (l : List UserRecord) (a : Nat) : a ≤ l.foldl maxStep a := by
  induction l generalizing a with
  | nil => exact Nat.le_refl a
  | cons u l ih =>
    refine Nat.le_trans ?_ (ih (maxStep a u))
    unfold maxStep
    split
    · exact Nat.le_of_lt (by assumption)
    · exact Nat.le_refl a

lemma mem_le_foldl_maxStep (l : List UserRecord) (a : Nat) :
    ∀ u ∈ l, u.id ≤ l.foldl maxStep a := by
  induction l generalizing a with
  | nil => intro u hu; cases hu
  | cons v l ih =>
    intro u hu
    rcases List.mem_cons.mp hu with h | h
    · subst h
      refine Nat.le_trans ?_ (le_foldl_maxStep l (maxStep a u))
      unfold maxStep
      split
      · exact Nat.le_refl u.id
      · exact Nat.le_of_not_lt (by assumption)
    · exact ih (maxStep a v) u h

lemma foldl_maxStep_eq_or (l : List UserRecord) (a : Nat) :
    l.foldl maxStep a = a ∨ ∃ u ∈ l, u.id = l.foldl maxStep a := by
  induction l generalizing a with
  | nil => exact Or.inl rfl
  | cons v l ih =>
    have hfold : (v :: l).foldl maxStep a = l.foldl maxStep (maxStep a v) := rfl
    rcases ih (maxStep a v) with h | h
    · by_cases hv : v.id > a
      · have hm : maxStep a v = v.id := if_pos hv
        refine Or.inr ⟨v, List.mem_cons_self v l, ?_⟩
        rw [hfold, h, hm]
      · have hm : maxStep a v = a := if_neg hv
        refine Or.inl ?_
        rw [hfold, h, hm]
    · rcases h with ⟨u, hu, hid⟩
      exact Or.inr ⟨u, List.mem_cons_of_mem v hu, hid⟩

lemma handleAddUser_users_of_valid (s : AppState)
    (h : ¬ (s.formData.firstName = "" ∨ s.formData.lastName = "" ∨
            s.formData.email = "" ∨ s.formData.department = "")) :
    (handleAddUser s).users = s.users ++
      [{ id := s.users.foldl maxStep 0 + 1, firstName := s.formData.firstName,
         lastName := s.formData.lastName, email := s.formData.email,
         department := s.formData.department }] := by
  unfold handleAddUser
  rw [if_neg h]
  rfl

/-- C1: when a valid draft is added, the new record gets id `max(existing ids) + 1`
(1 when the Store is empty), is appended at the end, and no existing record is
modified. -/
theorem add_assigns_next_id (s : AppState)
    (h : ¬ (s.formData.firstName = "" ∨ s.formData.lastName = "" ∨
            s.formData.email = "" ∨ s.formData.department = "")) :
    ∃ r : UserRecord,
      (handleAddUser s).users = s.users ++ [r] ∧
      r.firstName = s.formData.firstName ∧ r.lastName = s.formData.lastName ∧
      r.email = s.formData.email ∧ r.department = s.formData.department ∧
      (∀ u ∈ s.users, u.id < r.id) ∧
      (s.users = [] → r.id = 1) ∧
      (s.users ≠ [] → ∃ u ∈ s.users, u.id + 1 = r.id) := by
  refine ⟨_, handleAddUser_users_of_valid s h, rfl, rfl, rfl, rfl, ?_, ?_, ?_⟩
  · intro u hu
    exact Nat.lt_succ_of_le (mem_le_foldl_maxStep s.users 0 u hu)
  · intro he
    show s.users.foldl maxStep 0 + 1 = 1
    rw [he]
    rfl
  · intro hne
    rcases foldl_maxStep_eq_or s.users 0 with h0 | h0
    · obtain ⟨u, l, hul⟩ : ∃ u l, s.users = u :: l := by
        cases hus : s.users with
        | nil => exact absurd hus hne
        | cons u l => exact ⟨u, l, rfl⟩
      have hmem : u ∈ s.users := by rw [hul]; exact List.mem_cons_self u l
      refine ⟨u, hmem, ?_⟩
      have hle : u.id ≤ s.users.foldl maxStep 0 :=
        mem_le_foldl_maxStep s.users 0 u hmem
      have hu0 : u.id = 0 := Nat.le_antisymm (h0 ▸ hle) (Nat.zero_le u.id)
      show u.id + 1 = s.users.foldl maxStep 0 + 1
      rw [hu0, h0]
    · rcases h0 with ⟨u, hu, hid⟩
      exact ⟨u, hu, by rw [hid]⟩

/-- exAddState is the spec's Add scenario: a Store with ids 1 and 2 and a
valid draft `{firstName:"A", lastName:"B", email:"a@b.com", department:"X"}`. -/
def exAddState : AppState :=
  { users := [{ id := 1, firstName := "P", lastName := "Q", email := "p@q", department := "Z" },
              { id := 2, firstName := "R", lastName := "S", email := "r@s", department := "Z" }],
    showModal := true,
    formData := { id := none, firstName := "A", lastName := "B", email := "a@b.com", department := "X" },
    error := "", editing := false, currentPage := 1 }

/-- Witness for C1 at the spec's scenario: adding to a Store with ids 1 and 2
yields the old records followed by a record with id 3, and length 3. -/
theorem add_assigns_next_id_witness :
    ((handleAddUser exAddState).users =
      [{ id := 1, firstName := "P", lastName := "Q", email := "p@q", department := "Z" },
       { id := 2, firstName := "R", lastName := "S", email := "r@s", department := "Z" },
       { id := 3, firstName := "A", lastName := "B", email := "a@b.com", department := "X" }] ∧
     (handleAddUser exAddState).users.length = 3) ∧
    (∃ r : UserRecord,
      (handleAddUser exAddState).users = exAddState.users ++ [r] ∧
      r.firstName = exAddState.formData.firstName ∧ r.lastName = exAddState.formData.lastName ∧
      r.email = exAddState.formData.email ∧ r.department = exAddState.formData.department ∧
      (∀ u ∈ exAddState.users, u.id < r.id) ∧
      (exAddState.users = [] → r.id = 1) ∧
      (exAddState.users ≠ [] → ∃ u ∈ exAddState.users, u.id + 1 = r.id)) :=
  ⟨by decide, add_assigns_next_id exAddState (by decide)⟩

/-- C5: Add with any empty field leaves the Store unchanged, sets the
validation error message, keeps the modal open and keeps the draft; with all
fields non-empty it never fails: the error text is untouched and a record is
appended. -/
theorem add_validation (s : AppState) :
    ((s.formData.firstName = "" ∨ s.formData.lastName = "" ∨
      s.formData.email = "" ∨ s.formData.department = "") →
      (handleAddUser s).users = s.users ∧
      (handleAddUser s).error = "All fields must be filled out!" ∧
      (handleAddUser s).showModal = s.showModal ∧
      (handleAddUser s).formData = s.formData) ∧
    (¬ (s.formData.firstName = "" ∨ s.formData.lastName = "" ∨
        s.formData.email = "" ∨ s.formData.department = "") →
      (handleAddUser s).error = s.error ∧
      ∃ r : UserRecord, (handleAddUser s).users = s.users ++ [r]) := by
  constructor
  · intro hbad
    unfold handleAddUser
    rw [if_pos hbad]
    exact ⟨rfl, rfl, rfl, rfl⟩
  · intro hgood
    constructor
    · unfold handleAddUser
      rw [if_neg hgood]
    · exact ⟨_, handleAddUser_users_of_valid s hgood⟩

/-- Witness for C5: a draft with an empty lastName is rejected, leaving the
Store, the modal flag and the draft unchanged and setting the error text. -/
theorem add_validation_witness :
    (handleAddUser { exAddState with
        formData := { id := none, firstName := "A", lastName := "", email := "a@b.com", department := "X" } }).users
      = exAddState.users ∧
    (handleAddUser { exAddState with
        formData := { id := none, firstName := "A", lastName := "", email := "a@b.com", department := "X" } }).error
      = "All fields must be filled out!" ∧
    (handleAddUser exAddState).error = exAddState.error :=
  ⟨((add_validation { exAddState with
        formData := { id := none, firstName := "A", lastName := "", email := "a@b.com", department := "X" } }).1
      (by simp)).1,
   ((add_validation { exAddState with
        formData := { id := none, firstName := "A", lastName := "", email := "a@b.com", department := "X" } }).1
      (by simp)).2.1,
   ((add_validation exAddState).2 (by decide)).1⟩

/-- C8: on a failed fetch (network error or non-2xx, both of which reach the
`catch`), the error message is set, the users list is untouched, and at mount
(where the Store starts empty and the fetch runs once) the Store stays empty. -/
theorem fetch_failure_sets_error (s : AppState) (e : Unit) :
    (applyFetch s (Except.error e)).users = s.users ∧
    (applyFetch s (Except.error e)).error = "Failed to fetch users." ∧
    (mountApp (Except.error e)).users = [] ∧
    (mountApp (Except.error e)).error = "Failed to fetch users." :=
  ⟨rfl, rfl, rfl, rfl⟩

/-- C9: Edit never touches the error message and commits the draft's field
values into every id-matching record with no presence validation; in
particular editing with an all-empty draft leaves a record with empty fields
in the Store. -/
theorem edit_no_validation (s : AppState) :
    (handleEditUser s).error = s.error ∧
    (handleEditUser s).users = s.users.map (fun user =>
      if some user.id = s.formData.id then
        { id := user.id, firstName := s.formData.firstName,
          lastName := s.formData.lastName, email := s.formData.email,
          department := s.formData.department }
      else user) ∧
    (handleEditUser { initialState with
        users := [{ id := 1, firstName := "A", lastName := "B", email := "a@b", department := "D" }],
        formData := { id := some 1, firstName := "", lastName := "", email := "", department := "" } }).users
      = [{ id := 1, firstName := "", lastName := "", email := "", department := "" }] :=
  ⟨rfl, rfl, by decide⟩

/-- C10: Delete is idempotent, is the identity when no record matches, and
removes every record whose id matches, not only the first. -/
theorem delete_idempotent_removes_all (s : AppState) (id : Nat) :
    handleDeleteUser (handleDeleteUser s id) id = handleDeleteUser s id ∧
    ((∀ u ∈ s.users, u.id ≠ id) → handleDeleteUser s id = s) ∧
    (∀ u ∈ (handleDeleteUser s id).users, u.id ≠ id) ∧
    (∀ u : UserRecord, u ∈ (handleDeleteUser s id).users ↔ u ∈ s.users ∧ u.id ≠ id) := by
  refine ⟨?_, ?_, ?_, ?_⟩
  · show ({ s with users := (s.users.filter (fun u => u.id != id)).filter (fun u => u.id != id) } : AppState)
      = { s with users := s.users.filter (fun u => u.id != id) }
    have : (s.users.filter (fun u => u.id != id)).filter (fun u => u.id != id)
        = s.users.filter (fun u => u.id != id) :=
      List.filter_eq_self.mpr (fun u hu => (List.mem_filter.mp hu).2)
    rw [this]
  · intro hno
    show ({ s with users := s.users.filter (fun u => u.id != id) } : AppState) = s
    have : s.users.filter (fun u => u.id != id) = s.users :=
      List.filter_eq_self.mpr (fun u hu => bne_iff_ne.mpr (hno u hu))
    rw [this]
  · intro u hu
    exact bne_iff_ne.mp (List.mem_filter.mp hu).2
  · intro u
    constructor
    · intro hu
      exact ⟨(List.mem_filter.mp hu).1, bne_iff_ne.mp (List.mem_filter.mp hu).2⟩
    · intro hu
      exact List.mem_filter.mpr ⟨hu.1, bne_iff_ne.mpr hu.2⟩

/-- Witness for C10 at a Store with a duplicated id 1: Delete(1) removes both
matching records in one application and a second application changes nothing. -/
theorem delete_idempotent_removes_all_witness :
    handleDeleteUser (handleDeleteUser { initialState with
        users := [{ id := 1, firstName := "A", lastName := "B", email := "a", department := "D" },
                  { id := 2, firstName := "C", lastName := "D", email := "c", department := "D" },
                  { id := 1, firstName := "E", lastName := "F", email := "e", department := "D" }] } 1) 1
      = handleDeleteUser { initialState with
        users := [{ id := 1, firstName := "A", lastName := "B", email := "a", department := "D" },
                  { id := 2, firstName := "C", lastName := "D", email := "c", department := "D" },
                  { id := 1, firstName := "E", lastName := "F", email := "e", department := "D" }] } 1 ∧
    (∀ u ∈ (handleDeleteUser { initialState with
        users := [{ id := 1, firstName := "A", lastName := "B", email := "a", department := "D" },
                  { id := 2, firstName := "C", lastName := "D", email := "c", department := "D" },
                  { id := 1, firstName := "E", lastName := "F", email := "e", department := "D" }] } 1).users,
      u.id ≠ 1) ∧
    handleDeleteUser { initialState with
        users := [{ id := 2, firstName := "C", lastName := "D", email := "c", department := "D" }] } 1
      = { initialState with
        users := [{ id := 2, firstName := "C", lastName := "D", email := "c", department := "D" }] } :=
  ⟨(delete_idempotent_removes_all { initialState with
        users := [{ id := 1, firstName := "A", lastName := "B", email := "a", department := "D" },
                  { id := 2, firstName := "C", lastName := "D", email := "c", department := "D" },
                  { id := 1, firstName := "E", lastName := "F", email := "e", department := "D" }] } 1).1,
   (delete_idempotent_removes_all { initialState with
        users := [{ id := 1, firstName := "A", lastName := "B", email := "a", department := "D" },
                  { id := 2, firstName := "C", lastName := "D", email := "c", department := "D" },
                  { id := 1, firstName := "E", lastName := "F", email := "e", department := "D" }] } 1).2.2.1,
   (delete_idempotent_removes_all { initialState with
        users := [{ id := 2, firstName := "C", lastName := "D", email := "c", department := "D" }] } 1).2.1
     (by decide)⟩

lemma ids_append (l1 l2 : List UserRecord) : ids (l1 ++ l2) = ids l1 ++ ids l2 := by
  simp [ids]

/-- C7: under the Store invariant (unique ids), Delete(id) removes exactly the
matching record when present, keeping the relative order of the rest, and is
the identity when no record matches. -/
theorem delete_removes_exactly_one (s : AppState) (id : Nat)
    (hnd : (ids s.users).Nodup) :
    ((∃ u ∈ s.users, u.id = id) →
      ∃ (l1 l2 : List UserRecord) (u : UserRecord),
        s.users = l1 ++ u :: l2 ∧ u.id = id ∧
        (handleDeleteUser s id).users = l1 ++ l2) ∧
    ((∀ u ∈ s.users, u.id ≠ id) → handleDeleteUser s id = s) := by
  constructor
  · rintro ⟨u, hu, hid⟩
    obtain ⟨l1, l2, hsplit⟩ := List.append_of_mem hu
    refine ⟨l1, l2, u, hsplit, hid, ?_⟩
    show s.users.filter (fun v => v.id != id) = l1 ++ l2
    rw [hsplit] at hnd
    rw [hsplit, List.filter_append]
    have hids : ids (l1 ++ u :: l2) = ids l1 ++ u.id :: ids l2 := by
      rw [ids_append]; rfl
    rw [hids] at hnd
    rcases List.nodup_append.mp hnd with ⟨_, hnd2, hdisj⟩
    have hul2 : u.id ∉ ids l2 := (List.nodup_cons.mp hnd2).1
    have hl1 : ∀ v ∈ l1, v.id ≠ id := by
      intro v hv heq
      exact hdisj (by simpa [ids] using ⟨v, hv, heq.trans hid.symm⟩ :
        u.id ∈ ids l1) (List.mem_cons_self u.id (ids l2))
    have hl2 : ∀ v ∈ l2, v.id ≠ id := by
      intro v hv heq
      exact hul2 (by simpa [ids, hid] using ⟨v, hv, heq⟩ : u.id ∈ ids l2)
    have h1 : l1.filter (fun v => v.id != id) = l1 :=
      List.filter_eq_self.mpr (fun v hv => bne_iff_ne.mpr (hl1 v hv))
    have h2 : (u :: l2).filter (fun v => v.id != id) = l2 := by
      rw [List.filter_cons]
      have : (u.id != id) = false := by simp [hid]
      rw [this]
      simp only [Bool.false_eq_true, if_false]
      exact List.filter_eq_self.mpr (fun v hv => bne_iff_ne.mpr (hl2 v hv))
    rw [h1, h2]
  · intro hno
    show ({ s with users := s.users.filter (fun u => u.id != id) } : AppState) = s
    have : s.users.filter (fun u => u.id != id) = s.users :=
      List.filter_eq_self.mpr (fun u hu => bne_iff_ne.mpr (hno u hu))
    rw [this]

/-- exDelState is a Store with the unique ids 1, 2, 3 used to witness Delete. -/
def exDelState : AppState :=
  { initialState with
    users := [{ id := 1, firstName := "A", lastName := "B", email := "a", department := "D" },
              { id := 2, firstName := "C", lastName := "D", email := "c", department := "D" },
              { id := 3, firstName := "E", lastName := "F", email := "e", department := "D" }] }

/-- Witness for C7: on the Store with ids 1, 2, 3, Delete(2) removes exactly
the middle record and Delete(5) changes nothing. -/
theorem delete_removes_exactly_one_witness :
    (∃ (l1 l2 : List UserRecord) (u : UserRecord),
      exDelState.users = l1 ++ u :: l2 ∧ u.id = 2 ∧
      (handleDeleteUser exDelState 2).users = l1 ++ l2) ∧
    handleDeleteUser exDelState 5 = exDelState :=
  ⟨(delete_removes_exactly_one exDelState 2 (by decide)).1
      ⟨{ id := 2, firstName := "C", lastName := "D", email := "c", department := "D" },
       by decide, rfl⟩,
   (delete_removes_exactly_one exDelState 5 (by decide)).2 (by decide)⟩

lemma map_fix_eq_self {α : Type} (l : List α) (f : α → α) (h : ∀ x ∈ l, f x = x) :
    l.map f = l := by
  induction l with
  | nil => rfl
  | cons x l ih =>
    rw [List.map_cons, h x (List.mem_cons_self x l),
        ih (fun y hy => h y (List.mem_cons_of_mem x hy))]

lemma ids_distinct_at (l : List UserRecord) (hnd : (ids l).Nodup) (i j : Nat)
    (hij : i ≠ j) (u v : UserRecord) (hu : l[i]? = some u) (hv : l[j]? = some v) :
    u.id ≠ v.id := by
  intro heq
  apply hij
  have hiu : (ids l)[i]? = some u.id := by simp [ids, List.getElem?_map, hu]
  have hjv : (ids l)[j]? = some v.id := by simp [ids, List.getElem?_map, hv]
  have hi : i < (ids l).length := by
    rcases List.getElem?_eq_some.mp hiu with ⟨h, _⟩
    exact h
  exact List.getElem?_inj hi hnd (by rw [hiu, hjv, heq])

/-- C4: Edit with an id matching no record leaves the Store unchanged; under
the Store invariant (unique ids), Edit with a matching id replaces exactly
that record's field values (keeping its id and position) and leaves every
other position untouched. -/
theorem edit_replaces_matching_only (s : AppState) :
    ((∀ u ∈ s.users, some u.id ≠ s.formData.id) → (handleEditUser s).users = s.users) ∧
    ((ids s.users).Nodup →
      ∀ (i : Nat) (u : UserRecord), s.users[i]? = some u → some u.id = s.formData.id →
        (handleEditUser s).users.length = s.users.length ∧
        (handleEditUser s).users[i]? = some
          { id := u.id, firstName := s.formData.firstName, lastName := s.formData.lastName,
            email := s.formData.email, department := s.formData.department } ∧
        (∀ j : Nat, j ≠ i → (handleEditUser s).users[j]? = s.users[j]?)) := by
  constructor
  · intro hno
    show s.users.map _ = s.users
    exact map_fix_eq_self _ _ (fun u hu => if_neg (hno u hu))
  · intro hnd i u hu hid
    have hmap : (handleEditUser s).users = s.users.map (fun user =>
        if some user.id = s.formData.id then
          { id := user.id, firstName := s.formData.firstName, lastName := s.formData.lastName,
            email := s.formData.email, department := s.formData.department }
        else user) := rfl
    refine ⟨by rw [hmap, List.length_map], ?_, ?_⟩
    · rw [hmap, List.getElem?_map, hu]
      simp only [Option.map_some']
      rw [if_pos hid]
    · intro j hj
      rw [hmap, List.getElem?_map]
      cases hv : s.users[j]? with
      | none => rfl
      | some v =>
        have hne : v.id ≠ u.id := ids_distinct_at s.users hnd j i hj v u hv hu
        simp only [Option.map_some']
        rw [if_neg (fun hc => hne (by
          rw [hid.symm] at hc
          exact (Option.some.inj hc.symm).symm))]

/-- exEditState is the Store with ids 1, 2, 3 together with a draft editing
id 2. -/
def exEditState : AppState :=
  { exDelState with
    formData := { id := some 2, firstName := "N", lastName := "M", email := "n@m", department := "Y" },
    showModal := true, editing := true }

/-- Witness for C4: editing id 2 in the Store with ids 1, 2, 3 rewrites
exactly position 1, and editing an absent id leaves the Store unchanged. -/
theorem edit_replaces_matching_only_witness :
    ((handleEditUser exEditState).users.length = exEditState.users.length ∧
     (handleEditUser exEditState).users[1]? = some
       { id := 2, firstName := "N", lastName := "M", email := "n@m", department := "Y" } ∧
     (∀ j : Nat, j ≠ 1 → (handleEditUser exEditState).users[j]? = exEditState.users[j]?)) ∧
    (handleEditUser { exEditState with
        formData := { id := some 9, firstName := "N", lastName := "M", email := "n@m", department := "Y" } }).users
      = exEditState.users :=
  ⟨(edit_replaces_matching_only exEditState).2 (by decide) 1
      { id := 2, firstName := "C", lastName := "D", email := "c", department := "D" }
      (by decide) (by decide),
   (edit_replaces_matching_only { exEditState with
        formData := { id := some 9, firstName := "N", lastName := "M", email := "n@m", department := "Y" } }).1
      (by decide)⟩

lemma join_take_drop_chunks {α : Type} (m : Nat) :
    ∀ (n : Nat) (l : List α), l.length ≤ m * n →
      ((List.range n).map (fun k => (l.drop (k * m)).take m)).flatten = l := by
  intro n
  induction n with
  | zero =>
    intro l hl
    have : l = [] := List.eq_nil_of_length_eq_zero (Nat.le_zero.mp (by simpa using hl))
    rw [this]
    rfl
  | succ n ih =>
    intro l hl
    rw [List.range_succ_eq_map, List.map_cons, List.flatten_cons, List.map_map]
    have hshift : ((fun k => (l.drop (k * m)).take m) ∘ Nat.succ)
        = fun k => ((l.drop m).drop (k * m)).take m := by
      funext k
      show (l.drop ((k + 1) * m)).take m = ((l.drop m).drop (k * m)).take m
      rw [List.drop_drop]
      have : (k + 1) * m = m + k * m := by ring
      rw [this]
    rw [hshift]
    have hlen : (l.drop m).length ≤ m * n := by
      rw [List.length_drop]
      have : m * (n + 1) = m * n + m := by ring
      omega
    rw [ih (l.drop m) hlen]
    rw [Nat.zero_mul, List.drop_zero]
    exact List.take_append_drop m l

/-- C3: the visible slice of page p is `records[(p-1)*5 : (p-1)*5+5]`, the
page count is the least n with N ≤ 5n (that is, ceil(N/5)), concatenating the
slices of pages 1 .. pageCount in order reproduces the Store, selecting a
page past the end yields an empty slice, and the selected page is stored with
no clamping. -/
theorem pagination_correct (s : AppState) :
    paginateUsers s = (s.users.drop ((s.currentPage - 1) * usersPerPage)).take usersPerPage ∧
    (s.users.length ≤ usersPerPage * pageCount s.users ∧
     ∀ m : Nat, s.users.length ≤ usersPerPage * m → pageCount s.users ≤ m) ∧
    ((List.range (pageCount s.users)).map (fun k => paginateUsers (setCurrentPage s (k + 1)))).flatten
      = s.users ∧
    (∀ p : Nat, s.users.length ≤ (p - 1) * usersPerPage → paginateUsers (setCurrentPage s p) = []) ∧
    (∀ p : Nat, (setCurrentPage s p).currentPage = p) := by
  refine ⟨rfl, ⟨?_, ?_⟩, ?_, ?_, fun p => rfl⟩
  · show s.users.length ≤ 5 * ((s.users.length + 5 - 1) / 5)
    omega
  · intro m hm
    show (s.users.length + 5 - 1) / 5 ≤ m
    have : s.users.length ≤ 5 * m := hm
    omega
  · have hshape : (fun k => paginateUsers (setCurrentPage s (k + 1)))
        = fun k => (s.users.drop (k * usersPerPage)).take usersPerPage := by
      funext k
      show (s.users.drop ((k + 1 - 1) * usersPerPage)).take usersPerPage = _
      rw [Nat.add_sub_cancel]
    rw [hshape]
    refine join_take_drop_chunks usersPerPage (pageCount s.users) s.users ?_
    show s.users.length ≤ 5 * ((s.users.length + 5 - 1) / 5)
    omega
  · intro p hp
    show ((s.users.drop ((p - 1) * usersPerPage)).take usersPerPage) = []
    rw [List.drop_eq_nil_of_le hp]
    rfl

/-- exPageState is a Store of seven records viewed on page 2. -/
def exPageState : AppState :=
  { initialState with
    users := (List.range 7).map (fun k =>
      { id := k + 1, firstName := "F", lastName := "L", email := "e", department := "D" }),
    currentPage := 2 }

/-- Witness for C3 on a Store of 7 records: page 2 shows records 5..7, the
page count 2 is the least n with 7 ≤ 5n, the two pages concatenate to the
Store, and page 3 is empty with the page number stored unclamped. -/
theorem pagination_correct_witness :
    paginateUsers exPageState =
      (exPageState.users.drop ((exPageState.currentPage - 1) * usersPerPage)).take usersPerPage ∧
    (exPageState.users.length ≤ usersPerPage * pageCount exPageState.users ∧
     pageCount exPageState.users ≤ 2) ∧
    ((List.range (pageCount exPageState.users)).map
        (fun k => paginateUsers (setCurrentPage exPageState (k + 1)))).flatten = exPageState.users ∧
    paginateUsers (setCurrentPage exPageState 3) = [] ∧
    (setCurrentPage exPageState 3).currentPage = 3 := by
  rcases pagination_correct exPageState with ⟨h1, ⟨h2, h3⟩, h4, h5, h6⟩
  exact ⟨h1, ⟨h2, h3 2 (by decide)⟩, h4, h5 3 (by decide), h6 3⟩

/-- draftFilled is the validation condition of `handleAddUser`: all four text
fields non-empty (`!formData.firstName` tests emptiness in the source). -/
def draftFilled (d : FormData) : Prop :=
  ¬ (d.firstName = "" ∨ d.lastName = "" ∨ d.email = "" ∨ d.department = "")

lemma addStep_users_of_valid (s : AppState) (d : FormData) (h : draftFilled d) :
    ∃ r : UserRecord, (addStep s d).users = s.users ++ [r] ∧ ∀ u ∈ s.users, u.id < r.id := by
  refine ⟨_, handleAddUser_users_of_valid { s with formData := d } h, ?_⟩
  intro u hu
  exact Nat.lt_succ_of_le (mem_le_foldl_maxStep s.users 0 u hu)

lemma addStep_nodup (s : AppState) (d : FormData) (hnd : (ids s.users).Nodup) :
    (ids (addStep s d).users).Nodup := by
  by_cases h : draftFilled d
  · obtain ⟨r, hr, hlt⟩ := addStep_users_of_valid s d h
    rw [hr, ids_append]
    rw [List.nodup_append]
    refine ⟨hnd, List.nodup_singleton r.id, ?_⟩
    intro a ha hb
    have : a = r.id := by simpa [ids] using hb
    rcases (by simpa [ids] using ha : ∃ u ∈ s.users, u.id = a) with ⟨u, hu, hua⟩
    have h1 : u.id < r.id := hlt u hu
    rw [hua, this] at h1
    exact Nat.lt_irrefl r.id h1
  · have : (addStep s d).users = s.users := by
      unfold addStep handleAddUser
      rw [if_pos (not_not.mp h)]
    rw [this]
    exact hnd

lemma addMany_nodup (ds : List FormData) : ∀ s : AppState,
    (ids s.users).Nodup → (ids (addMany s ds).users).Nodup := by
  induction ds with
  | nil => intro s h; exact h
  | cons d ds ih => intro s h; exact ih (addStep s d) (addStep_nodup s d h)

lemma addMany_appends (ds : List FormData) : ∀ s : AppState,
    (∀ d ∈ ds, draftFilled d) →
    ∃ recs : List UserRecord,
      (addMany s ds).users = s.users ++ recs ∧
      recs.length = ds.length ∧
      List.Chain' (fun a b => a.id < b.id) recs ∧
      (∀ r ∈ recs, ∀ u ∈ s.users, u.id < r.id) := by
  induction ds with
  | nil =>
    intro s _
    exact ⟨[], by simp [addMany], rfl, List.chain'_nil, by simp⟩
  | cons d ds ih =>
    intro s h
    obtain ⟨r, hr, hlt⟩ := addStep_users_of_valid s d (h d (List.mem_cons_self d ds))
    obtain ⟨recs, hrecs, hlen, hchain, hub⟩ :=
      ih (addStep s d) (fun d' hd' => h d' (List.mem_cons_of_mem d hd'))
    have hstep : addMany s (d :: ds) = addMany (addStep s d) ds := rfl
    refine ⟨r :: recs, ?_, by simp [hlen], ?_, ?_⟩
    · rw [hstep, hrecs, hr, List.append_assoc]
      rfl
    · rw [List.chain'_cons']
      refine ⟨?_, hchain⟩
      intro b hb
      have hbmem : b ∈ recs := List.mem_of_mem_head? hb
      have hrmem : r ∈ (addStep s d).users := by
        rw [hr]
        exact List.mem_append_right s.users (List.mem_singleton_self r)
      exact hub b hbmem r hrmem
    · intro r' hr' u hu
      rcases List.mem_cons.mp hr' with h' | h'
      · exact h' ▸ hlt u hu
      · exact hub r' h' u (by rw [hr]; exact List.mem_append_left [r] hu)

/-- C2: from any Store with unique ids, any sequence of Adds with valid
drafts appends records whose ids are strictly increasing in the order added,
and after each prefix of the sequence the ids in the Store are still unique. -/
theorem add_sequence_increasing_unique (s : AppState) (ds : List FormData)
    (hval : ∀ d ∈ ds, draftFilled d) (hnd : (ids s.users).Nodup) :
    (∀ n : Nat, (ids (addMany s (ds.take n)).users).Nodup) ∧
    ∃ recs : List UserRecord,
      (addMany s ds).users = s.users ++ recs ∧
      recs.length = ds.length ∧
      List.Chain' (fun a b => a.id < b.id) recs := by
  constructor
  · intro n
    exact addMany_nodup (ds.take n) s hnd
  · obtain ⟨recs, h1, h2, h3, _⟩ := addMany_appends ds s hval
    exact ⟨recs, h1, h2, h3⟩

/-- exDrafts is a pair of valid drafts used to witness repeated Adds. -/
def exDrafts : List FormData :=
  [{ id := none, firstName := "A", lastName := "B", email := "a@b", department := "X" },
   { id := none, firstName := "C", lastName := "D", email := "c@d", department := "Y" }]

/-- Witness for C2: two valid Adds starting from the Store with ids 1, 2, 3
keep the ids unique at each step and append records with increasing ids. -/
theorem add_sequence_increasing_unique_witness :
    (ids (addMany exDelState (exDrafts.take 1)).users).Nodup ∧
    (ids (addMany exDelState (exDrafts.take 2)).users).Nodup ∧
    ∃ recs : List UserRecord,
      (addMany exDelState exDrafts).users = exDelState.users ++ recs ∧
      recs.length = exDrafts.length ∧
      List.Chain' (fun a b => a.id < b.id) recs := by
  rcases add_sequence_increasing_unique exDelState exDrafts
    (by intro d hd; fin_cases hd <;> simp [draftFilled]) (by decide) with ⟨hn, hex⟩
  exact ⟨hn 1, hn 2, hex⟩

lemma splitCharsOnSpace_eq (cs : List Char) :
    splitCharsOnSpace cs =
      cs.takeWhile (fun c => c != ' ') ::
        (if cs.dropWhile (fun c => c != ' ') = [] then []
         else splitCharsOnSpace ((cs.dropWhile (fun c => c != ' ')).drop 1)) := by
  induction cs with
  | nil => simp [splitCharsOnSpace]
  | cons c cs ih =>
    by_cases hc : c = ' '
    · subst hc
      have ht : (' ' :: cs).takeWhile (fun c => c != ' ') = [] := by
        simp [List.takeWhile_cons]
      have hd : (' ' :: cs).dropWhile (fun c => c != ' ') = ' ' :: cs := by
        simp [List.dropWhile_cons]
      rw [ht, hd]
      have hne : (' ' :: cs) ≠ ([] : List Char) := by simp
      rw [if_neg hne]
      show splitCharsOnSpace (' ' :: cs) = [] :: splitCharsOnSpace cs
      simp [splitCharsOnSpace]
    · have ht : (c :: cs).takeWhile (fun c => c != ' ')
          = c :: cs.takeWhile (fun c => c != ' ') := by
        simp [List.takeWhile_cons, hc]
      have hd : (c :: cs).dropWhile (fun c => c != ' ')
          = cs.dropWhile (fun c => c != ' ') := by
        simp [List.dropWhile_cons, hc]
      rw [ht, hd]
      have hcons : splitCharsOnSpace (c :: cs)
          = (match splitCharsOnSpace cs with
             | [] => [[c]]
             | w :: ws => (c :: w) :: ws) := by
        show (if c = ' ' then [] :: splitCharsOnSpace cs
              else match splitCharsOnSpace cs with
                   | [] => [[c]]
                   | w :: ws => (c :: w) :: ws) = _
        rw [if_neg hc]
      rw [hcons, ih]

lemma splitOnSpace_getD_zero (name : String) :
    ((splitOnSpace name).getD 0 "").data = name.data.takeWhile (fun c => c != ' ') := by
  unfold splitOnSpace
  rw [splitCharsOnSpace_eq]
  rfl

lemma splitOnSpace_getD_one (name : String) :
    ((splitOnSpace name).getD 1 "").data
      = ((name.data.dropWhile (fun c => c != ' ')).drop 1).takeWhile (fun c => c != ' ') := by
  unfold splitOnSpace
  rw [splitCharsOnSpace_eq]
  by_cases h : name.data.dropWhile (fun c => c != ' ') = []
  · rw [if_pos h, h]
    rfl
  · rw [if_neg h, splitCharsOnSpace_eq]
    rfl

/-- Counterexample to C6 as stated: for the fetched name "Jane Doe Smith" the
code takes the second space-separated token, lastName = "Doe", while the
claim's "remainder after the first space" is "Doe Smith". -/
theorem loader_lastname_counterexample :
    (formatUser { id := 7, name := "Jane Doe Smith", email := "j@d.com" }).lastName = "Doe" ∧
    specLastName "Jane Doe Smith" = "Doe Smith" ∧
    ¬ (formatUser { id := 7, name := "Jane Doe Smith", email := "j@d.com" }).lastName
        = specLastName "Jane Doe Smith" := by
  refine ⟨by decide, by decide, by decide⟩

/-- C6 amended: the Loader maps a remote item to a UserRecord with firstName
the first space-separated token of the name (its longest space-free prefix),
lastName the second space-separated token (the space-free run directly after
the first space; empty if there is no space), email copied and department the
constant "General"; {id:7, name:"Jane Doe", email:"j@d.com"} becomes
{id:7, firstName:"Jane", lastName:"Doe", email:"j@d.com", department:"General"}. -/
theorem loader_maps_name_tokens (user : RemoteUser) :
    (formatUser user).id = user.id ∧
    (formatUser user).firstName.data = user.name.data.takeWhile (fun c => c != ' ') ∧
    (formatUser user).lastName.data
      = ((user.name.data.dropWhile (fun c => c != ' ')).drop 1).takeWhile (fun c => c != ' ') ∧
    (formatUser user).email = user.email ∧
    (formatUser user).department = "General" ∧
    formatUser { id := 7, name := "Jane Doe", email := "j@d.com" }
      = { id := 7, firstName := "Jane", lastName := "Doe", email := "j@d.com",
          department := "General" } :=
  ⟨rfl, splitOnSpace_getD_zero user.name, splitOnSpace_getD_one user.name, rfl, rfl, by decide⟩
